import Mathlib

/-!
Shallow embedding of the core of the `redact-pii` application: the geometry
model (`BoundingBox.from_polygon` in `src/models/__init__.py`), the word model
(`DocumentWord`), the text-to-region matcher
(`PiiDetectionService.get_words_containing_pii` in
`src/services/pii_detection_service.py`), and the redaction renderer
(`ImageRedactionService.redact_image` in
`src/services/image_redaction_service.py`).

Conventions of the embedding:
* Python floats are modelled as rationals (`ℚ`): the coordinate arithmetic the
  code performs is `min`, `max` and subtraction.
* Python exceptions are modelled with `Except PyErr`; a function that can
  raise returns `Except PyErr α`.
* Python strings are modelled as `String`, with the character-level operations
  (`str.lower`, the `in` substring operator, `str.strip`, `str.split`)
  written out over `List Char`.  `Char.toLower` models `str.lower` on the
  ASCII range.
-/

namespace RedactPii

instance {ε α : Type} [DecidableEq ε] [DecidableEq α] : DecidableEq (Except ε α)
  | .ok a, .ok b =>
    if h : a = b then .isTrue (by rw [h]) else .isFalse fun hh => h (Except.ok.inj hh)
  | .ok _, .error _ => .isFalse fun hh => Except.noConfusion hh
  | .error _, .ok _ => .isFalse fun hh => Except.noConfusion hh
  | .error e, .error f =>
    if h : e = f then .isTrue (by rw [h]) else .isFalse fun hh => h (Except.error.inj hh)

/-- Python exceptions that the embedded code can raise. -/
inductive PyErr where
  /-- `ValueError(msg)`. -/
  | valueError (msg : String)
  /-- `TypeError: unhashable type: <typeName>` — raised by `set.add` when the
  element's class has `__hash__ = None`. -/
  | typeErrorUnhashable (typeName : String)
  /-- `PIL.UnidentifiedImageError` — raised by `Image.open` on undecodable bytes. -/
  | unidentifiedImageError
deriving DecidableEq, Repr

/-- `models.BoundingBox`: a bounding box for text in an image
(`src/models/__init__.py`). -/
structure BoundingBox where
  x : ℚ
  y : ℚ
  width : ℚ
  height : ℚ
deriving DecidableEq, Repr

/-- The elements of a list at even positions 0, 2, 4, …: the Python
comprehension `[polygon[i] for i in range(0, len(polygon), 2)]`. -/
def everyOther : List ℚ → List ℚ
  | [] => []
  | [a] => [a]
  | a :: _ :: t => a :: everyOther t

/-- Python `min(l)` on a list: `None` (a `ValueError`) on the empty list,
otherwise the least element. -/
def pyMin : List ℚ → Option ℚ
  | [] => none
  | a :: t => some (t.foldl min a)

/-- Python `max(l)` on a list. -/
def pyMax : List ℚ → Option ℚ
  | [] => none
  | a :: t => some (t.foldl max a)

/-- `BoundingBox.from_polygon` (`src/models/__init__.py`, lines 16–40):
raises `ValueError` when fewer than 8 scalars are supplied; otherwise takes
the scalars at even indices as x-coordinates and those at odd indices as
y-coordinates and returns the box `(min x, min y, max x - min x,
max y - min y)`.  The final match arm is unreachable (`length ≥ 8` makes both
coordinate lists non-empty); it mirrors the `ValueError` that Python's
`min([])` would raise. -/
def BoundingBox.from_polygon (polygon : List ℚ) : Except PyErr BoundingBox :=
  if polygon.length < 8 then
    .error (.valueError "Polygon must have at least 4 points (8 coordinates)")
  else
    let x_coords := everyOther polygon
    let y_coords := everyOther polygon.tail
    match pyMin x_coords, pyMin y_coords, pyMax x_coords, pyMax y_coords with
    | some x, some y, some mx, some my => .ok ⟨x, y, mx - x, my - y⟩
    | _, _, _, _ => .error (.valueError "min arg is an empty sequence")

/-- `models.DocumentWord`: a word extracted from a document.  In the Python
source it is a `@dataclass` with the default options `eq=True, frozen=False`,
which makes its instances unhashable (`__hash__` is `None`). -/
structure DocumentWord where
  content : String
  bounding_box : BoundingBox
  confidence : ℚ := 1
deriving DecidableEq, Repr

/-- Interleave a list of (x, y) pairs into the flat scalar list
`[x1, y1, x2, y2, …]` that `from_polygon` consumes. -/
def flattenPts : List (ℚ × ℚ) → List ℚ
  | [] => []
  | (a, b) :: t => a :: b :: flattenPts t

/-- `a` is the minimum of the list `l`: it occurs in `l` and bounds it below. -/
def IsMinOf (a : ℚ) (l : List ℚ) : Prop := a ∈ l ∧ ∀ z ∈ l, a ≤ z

/-- `a` is the maximum of the list `l`: it occurs in `l` and bounds it above. -/
def IsMaxOf (a : ℚ) (l : List ℚ) : Prop := a ∈ l ∧ ∀ z ∈ l, z ≤ a

theorem foldl_min_mem (t : List ℚ) (a : ℚ) : t.foldl min a ∈ a :: t := by
  induction t generalizing a with
  | nil => simp
  | cons b t ih =>
    simp only [List.foldl]
    rcases List.mem_cons.mp (ih (min a b)) with h1 | h1
    · rcases min_choice a b with hc | hc
      · rw [h1, hc]; exact List.mem_cons_self _ _
      · rw [h1, hc]; exact List.mem_cons_of_mem _ (List.mem_cons_self _ _)
    · exact List.mem_cons_of_mem _ (List.mem_cons_of_mem _ h1)

theorem foldl_min_le (t : List ℚ) (a : ℚ) :
    t.foldl min a ≤ a ∧ ∀ z ∈ t, t.foldl min a ≤ z := by
  induction t generalizing a with
  | nil => simp
  | cons b t ih =>
    obtain ⟨h1, h2⟩ := ih (min a b)
    simp only [List.foldl]
    refine ⟨le_trans h1 (min_le_left _ _), ?_⟩
    intro z hz
    rcases List.mem_cons.mp hz with h | h
    · subst h; exact le_trans h1 (min_le_right _ _)
    · exact h2 z h

theorem foldl_max_mem (t : List ℚ) (a : ℚ) : t.foldl max a ∈ a :: t := by
  induction t generalizing a with
  | nil => simp
  | cons b t ih =>
    simp only [List.foldl]
    rcases List.mem_cons.mp (ih (max a b)) with h1 | h1
    · rcases max_choice a b with hc | hc
      · rw [h1, hc]; exact List.mem_cons_self _ _
      · rw [h1, hc]; exact List.mem_cons_of_mem _ (List.mem_cons_self _ _)
    · exact List.mem_cons_of_mem _ (List.mem_cons_of_mem _ h1)

theorem foldl_max_le (t : List ℚ) (a : ℚ) :
    a ≤ t.foldl max a ∧ ∀ z ∈ t, z ≤ t.foldl max a := by
  induction t generalizing a with
  | nil => simp
  | cons b t ih =>
    obtain ⟨h1, h2⟩ := ih (max a b)
    simp only [List.foldl]
    refine ⟨le_trans (le_max_left _ _) h1, ?_⟩
    intro z hz
    rcases List.mem_cons.mp hz with h | h
    · subst h; exact le_trans (le_max_right _ _) h1
    · exact h2 z h

theorem pyMin_spec {l : List ℚ} {m : ℚ} (h : pyMin l = some m) : IsMinOf m l := by
  match l with
  | [] => simp [pyMin] at h
  | a :: t =>
    simp only [pyMin, Option.some.injEq] at h
    subst h
    exact ⟨foldl_min_mem t a, by
      intro z hz
      rcases List.mem_cons.mp hz with h | h
      · rw [h]; exact (foldl_min_le t a).1
      · exact (foldl_min_le t a).2 z h⟩

theorem pyMax_spec {l : List ℚ} {m : ℚ} (h : pyMax l = some m) : IsMaxOf m l := by
  match l with
  | [] => simp [pyMax] at h
  | a :: t =>
    simp only [pyMax, Option.some.injEq] at h
    subst h
    exact ⟨foldl_max_mem t a, by
      intro z hz
      rcases List.mem_cons.mp hz with h | h
      · rw [h]; exact (foldl_max_le t a).1
      · exact (foldl_max_le t a).2 z h⟩

theorem flattenPts_length (pts : List (ℚ × ℚ)) :
    (flattenPts pts).length = 2 * pts.length := by
  induction pts with
  | nil => rfl
  | cons p t ih => obtain ⟨a, b⟩ := p; simp [flattenPts, ih]; ring

theorem everyOther_flattenPts (pts : List (ℚ × ℚ)) :
    everyOther (flattenPts pts) = pts.map Prod.fst := by
  induction pts with
  | nil => rfl
  | cons p t ih => obtain ⟨a, b⟩ := p; simp [flattenPts, everyOther, ih]

theorem everyOther_tail_flattenPts (pts : List (ℚ × ℚ)) :
    everyOther (flattenPts pts).tail = pts.map Prod.snd := by
  induction pts with
  | nil => rfl
  | cons p t ih =>
    obtain ⟨a, b⟩ := p
    cases t with
    | nil => rfl
    | cons q t2 =>
      obtain ⟨c, d⟩ := q
      simp only [flattenPts, List.tail_cons, everyOther, List.map_cons] at *
      rw [ih]

theorem everyOther_cons_ne_nil (x : ℚ) (l : List ℚ) : everyOther (x :: l) ≠ [] := by
  cases l with
  | nil => simp [everyOther]
  | cons y t => simp [everyOther]

theorem pyMin_of_ne_nil {l : List ℚ} (h : l ≠ []) : ∃ m, pyMin l = some m := by
  cases l with
  | nil => exact absurd rfl h
  | cons a t => exact ⟨_, rfl⟩

theorem pyMax_of_ne_nil {l : List ℚ} (h : l ≠ []) : ∃ m, pyMax l = some m := by
  cases l with
  | nil => exact absurd rfl h
  | cons a t => exact ⟨_, rfl⟩

/-- Any scalar list with at least 8 entries is accepted by `from_polygon`. -/
theorem from_polygon_ok_of_len (polygon : List ℚ) (h : 8 ≤ polygon.length) :
    ∃ b, BoundingBox.from_polygon polygon = .ok b := by
  match polygon with
  | [] | [_] => simp at h
  | a :: b :: rest =>
    unfold BoundingBox.from_polygon
    rw [if_neg (by omega)]
    obtain ⟨x, hx⟩ := pyMin_of_ne_nil (everyOther_cons_ne_nil a (b :: rest))
    obtain ⟨mx, hmx⟩ := pyMax_of_ne_nil (everyOther_cons_ne_nil a (b :: rest))
    obtain ⟨y, hy⟩ := pyMin_of_ne_nil (everyOther_cons_ne_nil b rest)
    obtain ⟨my, hmy⟩ := pyMax_of_ne_nil (everyOther_cons_ne_nil b rest)
    simp only [List.tail_cons]
    rw [hx, hy, hmx, hmy]
    exact ⟨_, rfl⟩

/-- The shape of a successful `from_polygon` on a flat list of ≥ 4 (x,y)
pairs: all four `min`/`max` computations are over the pair coordinates. -/
theorem from_polygon_flattenPts_eq (pts : List (ℚ × ℚ)) (h : 4 ≤ pts.length) :
    ∃ x y mx my,
      pyMin (pts.map Prod.fst) = some x ∧ pyMin (pts.map Prod.snd) = some y ∧
      pyMax (pts.map Prod.fst) = some mx ∧ pyMax (pts.map Prod.snd) = some my ∧
      BoundingBox.from_polygon (flattenPts pts) = .ok ⟨x, y, mx - x, my - y⟩ := by
  have hlen : ¬ (flattenPts pts).length < 8 := by rw [flattenPts_length]; omega
  have hne : pts.map Prod.fst ≠ [] := by
    cases pts with
    | nil => simp at h
    | cons p t => simp
  have hne2 : pts.map Prod.snd ≠ [] := by
    cases pts with
    | nil => simp at h
    | cons p t => simp
  obtain ⟨x, hx⟩ := pyMin_of_ne_nil hne
  obtain ⟨mx, hmx⟩ := pyMax_of_ne_nil hne
  obtain ⟨y, hy⟩ := pyMin_of_ne_nil hne2
  obtain ⟨my, hmy⟩ := pyMax_of_ne_nil hne2
  refine ⟨x, y, mx, my, hx, hy, hmx, hmy, ?_⟩
  unfold BoundingBox.from_polygon
  rw [if_neg hlen]
  simp only [everyOther_flattenPts, everyOther_tail_flattenPts]
  rw [hx, hy, hmx, hmy]

/-- **C4**: for every coordinate list of at least 4 (x,y) pairs,
`BoundingBox.from_polygon` succeeds and returns the box whose `x` is the
minimum of the x-coordinates, whose `y` is the minimum of the y-coordinates,
and whose `width` and `height` are `max − min` of the x- respectively
y-coordinates (expressed as: `x + width` is the maximum x and `y + height`
is the maximum y). -/
theorem from_polygon_minmax (pts : List (ℚ × ℚ)) (h : 4 ≤ pts.length) :
    ∃ b, BoundingBox.from_polygon (flattenPts pts) = .ok b ∧
      IsMinOf b.x (pts.map Prod.fst) ∧ IsMinOf b.y (pts.map Prod.snd) ∧
      IsMaxOf (b.x + b.width) (pts.map Prod.fst) ∧
      IsMaxOf (b.y + b.height) (pts.map Prod.snd) := by
  obtain ⟨x, y, mx, my, hx, hy, hmx, hmy, heq⟩ := from_polygon_flattenPts_eq pts h
  refine ⟨⟨x, y, mx - x, my - y⟩, heq, pyMin_spec hx, pyMin_spec hy, ?_, ?_⟩
  · have : x + (mx - x) = mx := by ring
    rw [this]
    exact pyMax_spec hmx
  · have : y + (my - y) = my := by ring
    rw [this]
    exact pyMax_spec hmy

/-- **C4 witness**: the concrete polygon `[(0,0), (4,0), (4,2), (0,2)]`. -/
theorem from_polygon_minmax_witness :
    4 ≤ ([((0:ℚ), (0:ℚ)), (4, 0), (4, 2), (0, 2)]).length ∧
    ∃ b, BoundingBox.from_polygon
        (flattenPts [((0:ℚ), (0:ℚ)), (4, 0), (4, 2), (0, 2)]) = .ok b ∧
      IsMinOf b.x ([((0:ℚ), (0:ℚ)), (4, 0), (4, 2), (0, 2)].map Prod.fst) ∧
      IsMinOf b.y ([((0:ℚ), (0:ℚ)), (4, 0), (4, 2), (0, 2)].map Prod.snd) ∧
      IsMaxOf (b.x + b.width) ([((0:ℚ), (0:ℚ)), (4, 0), (4, 2), (0, 2)].map Prod.fst) ∧
      IsMaxOf (b.y + b.height) ([((0:ℚ), (0:ℚ)), (4, 0), (4, 2), (0, 2)].map Prod.snd) :=
  ⟨by decide, from_polygon_minmax _ (by decide)⟩

/-- **C5**: `from_polygon` succeeds on a list of (x,y) pairs exactly when at
least 4 pairs are supplied, and with fewer than 4 pairs it fails with the
`InvalidGeometry` `ValueError`. -/
theorem from_polygon_fail_iff (pts : List (ℚ × ℚ)) :
    ((∃ b, BoundingBox.from_polygon (flattenPts pts) = .ok b) ↔ 4 ≤ pts.length) ∧
    (pts.length < 4 →
      BoundingBox.from_polygon (flattenPts pts) =
        .error (.valueError "Polygon must have at least 4 points (8 coordinates)")) := by
  have herr : pts.length < 4 →
      BoundingBox.from_polygon (flattenPts pts) =
        .error (.valueError "Polygon must have at least 4 points (8 coordinates)") := by
    intro h4
    unfold BoundingBox.from_polygon
    rw [if_pos (by rw [flattenPts_length]; omega)]
  refine ⟨⟨?_, ?_⟩, herr⟩
  · rintro ⟨b, hb⟩
    by_contra hlt
    rw [herr (by omega)] at hb
    exact Except.noConfusion hb
  · intro h4
    exact from_polygon_ok_of_len _ (by rw [flattenPts_length]; omega)

/-- **C5 witness**: 3 pairs are rejected with the `ValueError`; 4 pairs are
accepted. -/
theorem from_polygon_fail_iff_witness :
    BoundingBox.from_polygon (flattenPts [((0:ℚ), (0:ℚ)), (1, 0), (1, 1)]) =
      .error (.valueError "Polygon must have at least 4 points (8 coordinates)") ∧
    ∃ b, BoundingBox.from_polygon
        (flattenPts [((0:ℚ), (0:ℚ)), (1, 0), (1, 1), (0, 1)]) = .ok b :=
  ⟨(from_polygon_fail_iff [((0:ℚ), (0:ℚ)), (1, 0), (1, 1)]).2 (by decide),
   (from_polygon_fail_iff [((0:ℚ), (0:ℚ)), (1, 0), (1, 1), (0, 1)]).1.mpr (by decide)⟩

/-- **C10**: `from_polygon` validates by counting scalars, not complete
pairs: every scalar list with at least 8 entries is accepted, including
odd-length lists; on the 9-scalar list `[1,1, 2,1, 2,2, 1,2, 0]` (the unit
square shifted to (1,1), plus a dangling scalar 0) the dangling 0 is treated
as an extra x-coordinate, so the result is `⟨0, 1, 2, 1⟩` rather than the
square's box `⟨1, 1, 1, 1⟩`. -/
theorem from_polygon_scalar_count :
    (∀ polygon : List ℚ, 8 ≤ polygon.length →
      ∃ b, BoundingBox.from_polygon polygon = .ok b) ∧
    BoundingBox.from_polygon [1, 1, 2, 1, 2, 2, 1, 2, 0] =
      .ok ⟨0, 1, 2, 1⟩ :=
  ⟨from_polygon_ok_of_len, by with_unfolding_all rfl⟩

/-- **C10 witness**: a concrete 8-scalar list is accepted. -/
theorem from_polygon_scalar_count_witness :
    ∃ b, BoundingBox.from_polygon [3, 0, 4, 0, 4, 1, 3, 1] = .ok b :=
  from_polygon_scalar_count.1 [3, 0, 4, 0, 4, 1, 3, 1] (by decide)

/-! ### Text-to-region matcher
(`PiiDetectionService.get_words_containing_pii`,
`src/services/pii_detection_service.py`, lines 41–78). -/

/-- `str.lower` on a character list (`Char.toLower` lowers the ASCII range). -/
def pyLower (l : List Char) : List Char := l.map Char.toLower

/-- `needle` begins the list `hay`. -/
def leadMatch : List Char → List Char → Bool
  | [], _ => true
  | _ :: _, [] => false
  | a :: as, b :: bs => a == b && leadMatch as bs

/-- The Python substring operator: `pyIn needle hay` models `needle in hay`
for strings (`""` is contained in every string). -/
def pyIn (needle : List Char) : List Char → Bool
  | [] => needle.isEmpty
  | c :: t => leadMatch needle (c :: t) || pyIn needle t

/-- `str.strip()`: drop leading and trailing whitespace. -/
def pyStrip (l : List Char) : List Char :=
  ((l.dropWhile Char.isWhitespace).reverse.dropWhile Char.isWhitespace).reverse

/-- Worker for `str.split()` with no separator: `acc` holds the reversed
characters of the word being read. -/
def pySplitWs : List Char → List Char → List (List Char)
  | acc, [] => if acc.isEmpty then [] else [acc.reverse]
  | acc, c :: t =>
    if c.isWhitespace then
      if acc.isEmpty then pySplitWs [] t else acc.reverse :: pySplitWs [] t
    else pySplitWs (c :: acc) t

/-- `str.split()`: split on whitespace runs, producing no empty parts. -/
def pySplit (l : List Char) : List (List Char) := pySplitWs [] l

/-- The component list of one PII value (lines 62–66): `[component.strip()
for component in pii_value.strip().split() if component.strip()]`. -/
def pii_components (pii_value : String) : List (List Char) :=
  ((pySplit (pyStrip pii_value.data)).map pyStrip).filter (fun c => !c.isEmpty)

/-- The match test of lines 73–74: `component.lower() in word.content.lower()
or word.content.lower() in component.lower()`. -/
def matchCond (word : DocumentWord) (component : List Char) : Bool :=
  pyIn (pyLower component) (pyLower word.content.data) ||
  pyIn (pyLower word.content.data) (pyLower component)

/-- `words_containing_pii.add(word)` (line 75).  `DocumentWord` is a
`@dataclass` with the default options (`eq=True, frozen=False`), so Python
sets its `__hash__` to `None`; `set.add` therefore raises
`TypeError: unhashable type: 'DocumentWord'` on every call. -/
def setAddWord (_s : List DocumentWord) (_w : DocumentWord) :
    Except PyErr (List DocumentWord) :=
  .error (.typeErrorUnhashable "DocumentWord")

/-- The inner loop over `pii_components` for one word (lines 71–76). -/
def scanComponents (word : DocumentWord) :
    List DocumentWord → List (List Char) → Except PyErr (List DocumentWord)
  | s, [] => .ok s
  | s, component :: rest =>
    if matchCond word component then
      match setAddWord s word with
      | .error e => .error e
      | .ok s2 => scanComponents word s2 rest
    else scanComponents word s rest

/-- The middle loop over `extracted_words` (lines 70–76). -/
def scanWords (pii_comps : List (List Char)) :
    List DocumentWord → List DocumentWord → Except PyErr (List DocumentWord)
  | s, [] => .ok s
  | s, word :: rest =>
    match scanComponents word s pii_comps with
    | .error e => .error e
    | .ok s2 => scanWords pii_comps s2 rest

/-- The outer loop over `pii_values` (lines 60–76). -/
def scanValues (extracted_words : List DocumentWord) :
    List DocumentWord → List String → Except PyErr (List DocumentWord)
  | s, [] => .ok s
  | s, v :: rest =>
    match scanWords (pii_components v) s extracted_words with
    | .error e => .error e
    | .ok s2 => scanValues extracted_words s2 rest

/-- `PiiDetectionService.get_words_containing_pii` (lines 41–78).  The
`pii_values` argument is the Python set of detected PII strings, modelled as
the list the set iterates in; the accumulating `set()` is modelled by its
contents plus the `TypeError` its `add` raises. -/
def get_words_containing_pii (extracted_words : List DocumentWord)
    (pii_values : List String) : Except PyErr (List DocumentWord) :=
  match scanValues extracted_words [] pii_values with
  | .error e => .error e
  | .ok s => .ok s

/-- Does any PII component of any value match any word? -/
def anyPiiMatch (extracted_words : List DocumentWord)
    (pii_values : List String) : Bool :=
  pii_values.any fun v => extracted_words.any fun w =>
    (pii_components v).any fun c => matchCond w c

theorem scanComponents_spec (word : DocumentWord) (s : List DocumentWord)
    (comps : List (List Char)) :
    scanComponents word s comps =
      if comps.any (fun c => matchCond word c) then
        .error (.typeErrorUnhashable "DocumentWord")
      else .ok s := by
  induction comps with
  | nil => simp [scanComponents]
  | cons c rest ih =>
    simp only [scanComponents, List.any_cons, Bool.or_eq_true]
    by_cases h : matchCond word c = true
    · simp [h, setAddWord]
    · simp [h, ih]

theorem scanWords_spec (comps : List (List Char)) (s ws : List DocumentWord) :
    scanWords comps s ws =
      if ws.any (fun w => comps.any (fun c => matchCond w c)) then
        .error (.typeErrorUnhashable "DocumentWord")
      else .ok s := by
  induction ws generalizing s with
  | nil => simp [scanWords]
  | cons w rest ih =>
    simp only [scanWords, List.any_cons, Bool.or_eq_true, scanComponents_spec]
    by_cases h : (comps.any fun c => matchCond w c) = true
    · simp [h]
    · simp [h, ih]

theorem scanValues_spec (ws : List DocumentWord) (s : List DocumentWord)
    (vs : List String) :
    scanValues ws s vs =
      if anyPiiMatch ws vs then
        .error (.typeErrorUnhashable "DocumentWord")
      else .ok s := by
  induction vs generalizing s with
  | nil => simp [scanValues, anyPiiMatch]
  | cons v rest ih =>
    simp only [scanValues, anyPiiMatch, List.any_cons, Bool.or_eq_true,
      scanWords_spec]
    by_cases h : (ws.any fun w => (pii_components v).any fun c => matchCond w c) = true
    · simp [h]
    · simp only [h] at *
      simp [ih, anyPiiMatch]

/-- The matcher either raises the `TypeError` (as soon as any word matches
any component) or returns the empty list. -/
theorem gwcp_spec (ws : List DocumentWord) (vs : List String) :
    get_words_containing_pii ws vs =
      if anyPiiMatch ws vs then
        .error (.typeErrorUnhashable "DocumentWord")
      else .ok [] := by
  unfold get_words_containing_pii
  rw [scanValues_spec]
  by_cases h : anyPiiMatch ws vs = true
  · simp [h]
  · simp [h]

theorem leadMatch_iff (needle hay : List Char) :
    leadMatch needle hay = true ↔ ∃ r, hay = needle ++ r := by
  induction needle generalizing hay with
  | nil => simp [leadMatch]
  | cons a as ih =>
    cases hay with
    | nil => simp [leadMatch]
    | cons b bs =>
      simp only [leadMatch, Bool.and_eq_true, beq_iff_eq, List.cons_append,
        List.cons.injEq, ih]
      constructor
      · rintro ⟨rfl, r, rfl⟩; exact ⟨r, rfl, rfl⟩
      · rintro ⟨r, rfl, rfl⟩; exact ⟨rfl, r, rfl⟩

/-- The Python substring operator agrees with the mathematical "occurs as a
contiguous substring" property. -/
theorem pyIn_iff (needle hay : List Char) :
    pyIn needle hay = true ↔ ∃ l r, hay = l ++ needle ++ r := by
  induction hay with
  | nil =>
    simp only [pyIn, List.isEmpty_iff]
    constructor
    · rintro rfl; exact ⟨[], [], rfl⟩
    · rintro ⟨l, r, h⟩
      obtain ⟨h1, _⟩ := List.append_eq_nil.mp h.symm
      exact (List.append_eq_nil.mp h1).2
  | cons c t ih =>
    simp only [pyIn, Bool.or_eq_true, leadMatch_iff, ih]
    constructor
    · rintro (⟨r, hr⟩ | ⟨l, r, rfl⟩)
      · exact ⟨[], r, by simpa using hr⟩
      · exact ⟨c :: l, r, rfl⟩
    · rintro ⟨l, r, h⟩
      cases l with
      | nil => exact .inl ⟨r, by simpa using h⟩
      | cons x l2 =>
        refine .inr ⟨l2, r, ?_⟩
        simp only [List.cons_append] at h
        injection h with h1 h2

/-- **C6**: the word/component match test of the matcher is exactly the
case-insensitive bidirectional substring test — the word matches iff the
lower-cased word content occurs inside the lower-cased component or the
lower-cased component occurs inside the lower-cased word content; in
particular the PII component `"john"` matches the OCR word `"JOHN"`. -/
theorem matchCond_bidirectional :
    (∀ (w : DocumentWord) (component : List Char),
      matchCond w component = true ↔
        ((∃ l r, pyLower component = l ++ pyLower w.content.data ++ r) ∨
         (∃ l r, pyLower w.content.data = l ++ pyLower component ++ r))) ∧
    matchCond ⟨"JOHN", ⟨0, 0, 1, 1⟩, 1⟩ "john".data = true := by
  refine ⟨?_, by decide⟩
  intro w component
  simp only [matchCond, Bool.or_eq_true, pyIn_iff]
  exact or_comm

/-- **C1** (code-bug evidence): the matching step is not total.  On the OCR
word `"Jane"` and PII set `{"Jane"}` the very first `set.add` raises
`TypeError: unhashable type: 'DocumentWord'` (the `@dataclass` has
`eq=True, frozen=False`, hence `__hash__ = None`), so
`get_words_containing_pii` raises instead of returning a word list. -/
theorem gwcp_typeerror_on_match :
    get_words_containing_pii [⟨"Jane", ⟨0, 0, 1, 1⟩, 1⟩] ["Jane"] =
      .error (.typeErrorUnhashable "DocumentWord") := by decide

/-- **C2** (code-bug evidence): on PII set `{"Jane Smith"}` and OCR words
`["Jane", "Smith", "Street"]` the matcher does not select `"Jane"` and
`"Smith"` — it raises the unhashable-type `TypeError` at the first match. -/
theorem gwcp_janeSmith_crash :
    get_words_containing_pii
      [⟨"Jane", ⟨0, 0, 2, 1⟩, 1⟩, ⟨"Smith", ⟨3, 0, 2, 1⟩, 1⟩,
       ⟨"Street", ⟨0, 2, 3, 1⟩, 1⟩]
      ["Jane Smith"] = .error (.typeErrorUnhashable "DocumentWord") := by decide

/-- **C3** (code-bug evidence): a word that matches two different PII
components (`"JaneSmith"` matches both components of `"Jane Smith"`) is not
returned exactly once — the set-based deduplication never happens because the
first `set.add` already raises the unhashable-type `TypeError`. -/
theorem gwcp_dedup_crash :
    matchCond ⟨"JaneSmith", ⟨0, 0, 4, 1⟩, 1⟩ "Jane".data = true ∧
    matchCond ⟨"JaneSmith", ⟨0, 0, 4, 1⟩, 1⟩ "Smith".data = true ∧
    pii_components "Jane Smith" = ["Jane".data, "Smith".data] ∧
    get_words_containing_pii [⟨"JaneSmith", ⟨0, 0, 4, 1⟩, 1⟩] ["Jane Smith"] =
      .error (.typeErrorUnhashable "DocumentWord") := by decide

/-- **C9**: every word returned by `get_words_containing_pii` is an element
of the input word list, so every redaction region the pipeline would pass to
the renderer is the bounding box of an OCR-extracted input word — the
pipeline never fabricates a region.  In fact every successful return is the
empty list (any match raises the unhashable-type `TypeError` before a word
could be returned — that raise falsifies the totality claim, not this
containment invariant), and when the matcher raises, `redact_pii` propagates
the exception and the renderer receives no region at all. -/
theorem gwcp_returned_words_from_input :
    (∀ (ws : List DocumentWord) (vs : List String) (res : List DocumentWord),
      get_words_containing_pii ws vs = .ok res →
        (∀ w ∈ res, w ∈ ws) ∧ res = []) ∧
    get_words_containing_pii [⟨"123-45-6789", ⟨4, 0, 6, 1⟩, 1⟩]
      ["123-45-6789"] = .error (.typeErrorUnhashable "DocumentWord") := by
  refine ⟨?_, by decide⟩
  intro ws vs res h
  rw [gwcp_spec] at h
  by_cases hm : anyPiiMatch ws vs = true
  · rw [if_pos hm] at h; exact Except.noConfusion h
  · rw [if_neg hm] at h
    obtain rfl := (Except.ok.inj h).symm
    exact ⟨fun w hw => absurd hw (List.not_mem_nil w), rfl⟩

/-- **C9 witness**: a no-match input on which the matcher does return; the
returned list is empty and (trivially) contained in the input word list. -/
theorem gwcp_returned_words_from_input_witness :
    get_words_containing_pii [⟨"Street", ⟨0, 2, 3, 1⟩, 1⟩] ["xyz"] = .ok [] ∧
    ((∀ w ∈ ([] : List DocumentWord), w ∈ [(⟨"Street", ⟨0, 2, 3, 1⟩, 1⟩ : DocumentWord)]) ∧
      ([] : List DocumentWord) = []) :=
  ⟨by decide,
   gwcp_returned_words_from_input.1 [⟨"Street", ⟨0, 2, 3, 1⟩, 1⟩] ["xyz"] []
     (by decide)⟩

/-! ### Redaction renderer
(`ImageRedactionService.redact_image`, `src/services/image_redaction_service.py`,
lines 16–70).  The PIL primitives (`Image.open`, `image.convert('RGB')`,
`image.save(..., format='PNG')`) are an external library; the embedding takes
them as parameters over an abstract byte type `β` and an explicit pixel grid,
while the drawing of the redaction rectangles — the loop the service itself
performs — is embedded concretely. -/

/-- An RGB pixel value. -/
abbrev Color := ℕ × ℕ × ℕ

/-- The fill color `'black'`. -/
def black : Color := (0, 0, 0)

/-- The pixel data of a decoded image: a list of pixel rows. -/
structure PixelGrid where
  rows : List (List Color)
deriving DecidableEq, Repr

/-- A PIL image as returned by `Image.open`: its color mode and its pixel
data (held in the grid type; for mode `"RGB"` the grid is the RGB pixels). -/
structure PILImage where
  mode : String
  pix : PixelGrid
deriving DecidableEq, Repr

/-- `models.ImageRedactionResult`, parametric over the byte type `β`. -/
structure ImageRedactionResult (β : Type) where
  content : β
  content_type : String

/-- Is pixel `(px, py)` covered by the PIL rectangle
`[bbox.x, bbox.y, bbox.x + bbox.width, bbox.y + bbox.height]`?
(`draw.rectangle` paints the inclusive coordinate range.) -/
def inRect (b : BoundingBox) (px py : ℕ) : Bool :=
  decide (b.x ≤ (px : ℚ)) && decide ((px : ℚ) ≤ b.x + b.width) &&
  decide (b.y ≤ (py : ℚ)) && decide ((py : ℚ) ≤ b.y + b.height)

/-- Paint one pixel row; `px` is the column of the row's first entry. -/
def paintRow (b : BoundingBox) (py : ℕ) : ℕ → List Color → List Color
  | _, [] => []
  | px, c :: rest =>
    (if inRect b px py then black else c) :: paintRow b py (px + 1) rest

/-- Paint every row of a grid; `py` is the index of the first row. -/
def paintRows (b : BoundingBox) : ℕ → List (List Color) → List (List Color)
  | _, [] => []
  | py, row :: rest => paintRow b py 0 row :: paintRows b (py + 1) rest

/-- One iteration of the rectangle loop (lines 44–53):
`draw.rectangle([bbox.x, bbox.y, bbox.x + bbox.width, bbox.y + bbox.height],
fill='black')`. -/
def drawRect (g : PixelGrid) (b : BoundingBox) : PixelGrid :=
  ⟨paintRows b 0 g.rows⟩

/-- `ImageRedactionService.redact_image` (lines 16–70): open the source
bytes (`UnidentifiedImageError` on failure), convert to RGB unless the mode
already is `"RGB"`, draw a black rectangle per redaction area, and save as
PNG with content type `image/png`. -/
def redact_image {β : Type} (imageOpen : β → Option PILImage)
    (convertRGB : PILImage → PixelGrid) (savePNG : PixelGrid → β)
    (source_image_bytes : β) (redaction_areas : List BoundingBox) :
    Except PyErr (ImageRedactionResult β) :=
  match imageOpen source_image_bytes with
  | none => .error .unidentifiedImageError
  | some image =>
    let img := if image.mode = "RGB" then image.pix else convertRGB image
    let drawn := redaction_areas.foldl drawRect img
    .ok ⟨savePNG drawn, "image/png"⟩

theorem paintRow_absorb (b : BoundingBox) (py px : ℕ) (row : List Color) :
    paintRow b py px (paintRow b py px row) = paintRow b py px row := by
  induction row generalizing px with
  | nil => rfl
  | cons c rest ih =>
    simp only [paintRow]
    by_cases h : inRect b px py
    · simp [h, ih]
    · simp [h, ih]

theorem paintRow_comm (b1 b2 : BoundingBox) (py px : ℕ) (row : List Color) :
    paintRow b1 py px (paintRow b2 py px row) =
      paintRow b2 py px (paintRow b1 py px row) := by
  induction row generalizing px with
  | nil => rfl
  | cons c rest ih =>
    simp only [paintRow]
    by_cases h1 : inRect b1 px py <;> by_cases h2 : inRect b2 px py <;>
      simp [h1, h2, ih]

theorem paintRows_absorb (b : BoundingBox) (py : ℕ) (rows : List (List Color)) :
    paintRows b py (paintRows b py rows) = paintRows b py rows := by
  induction rows generalizing py with
  | nil => rfl
  | cons row rest ih => simp [paintRows, paintRow_absorb, ih]

theorem paintRows_comm (b1 b2 : BoundingBox) (py : ℕ) (rows : List (List Color)) :
    paintRows b1 py (paintRows b2 py rows) =
      paintRows b2 py (paintRows b1 py rows) := by
  induction rows generalizing py with
  | nil => rfl
  | cons row rest ih => simp [paintRows, paintRow_comm, ih]

theorem drawRect_absorb (g : PixelGrid) (b : BoundingBox) :
    drawRect (drawRect g b) b = drawRect g b := by
  simp [drawRect, paintRows_absorb]

theorem drawRect_comm (g : PixelGrid) (b1 b2 : BoundingBox) :
    drawRect (drawRect g b1) b2 = drawRect (drawRect g b2) b1 := by
  simp [drawRect, paintRows_comm]

theorem foldl_drawRect_out (L : List BoundingBox) (g : PixelGrid) (b : BoundingBox) :
    drawRect (L.foldl drawRect g) b = L.foldl drawRect (drawRect g b) := by
  induction L generalizing g with
  | nil => rfl
  | cons b2 L ih =>
    simp only [List.foldl_cons]
    rw [ih, drawRect_comm]

theorem foldl_drawRect_idem (L : List BoundingBox) (g : PixelGrid) :
    L.foldl drawRect (L.foldl drawRect g) = L.foldl drawRect g := by
  induction L generalizing g with
  | nil => rfl
  | cons b L ih =>
    simp only [List.foldl_cons]
    rw [foldl_drawRect_out, drawRect_absorb, ih]

/-- **C7**: rendering is idempotent at the byte level.  For every decode /
convert / PNG-encode triple satisfying the lossless RGB round-trip the spec
guarantees of the fixed output format (reopening saved PNG bytes yields a
mode-"RGB" image with the same pixels), applying `redact_image` to its own
output with the same region set returns bytes identical to the first output. -/
theorem redact_image_idem {β : Type} (imageOpen : β → Option PILImage)
    (convertRGB : PILImage → PixelGrid) (savePNG : PixelGrid → β)
    (hRT : ∀ g : PixelGrid, imageOpen (savePNG g) = some ⟨"RGB", g⟩)
    (src : β) (areas : List BoundingBox) (res : ImageRedactionResult β)
    (h : redact_image imageOpen convertRGB savePNG src areas = .ok res) :
    redact_image imageOpen convertRGB savePNG res.content areas = .ok res := by
  unfold redact_image at h
  cases hopen : imageOpen src with
  | none => rw [hopen] at h; exact Except.noConfusion h
  | some image =>
    rw [hopen] at h
    simp only at h
    have hres : res = ⟨savePNG (areas.foldl drawRect
        (if image.mode = "RGB" then image.pix else convertRGB image)),
        "image/png"⟩ := (Except.ok.inj h).symm
    subst hres
    unfold redact_image
    rw [hRT]
    dsimp only
    rw [if_pos rfl, foldl_drawRect_idem]

/-- **C7 witness**: a concrete toy codec (bytes = `PILImage`), a concrete
1×1 image and one region; the first rendering blackens the pixel and the
second rendering reproduces it byte-for-byte. -/
theorem redact_image_idem_witness :
    redact_image (β := PILImage) some PILImage.pix (PILImage.mk "RGB")
      ⟨"RGB", ⟨[[(5, 5, 5)]]⟩⟩ [⟨0, 0, 0, 0⟩] =
      .ok ⟨⟨"RGB", ⟨[[(0, 0, 0)]]⟩⟩, "image/png"⟩ ∧
    redact_image (β := PILImage) some PILImage.pix (PILImage.mk "RGB")
      ⟨"RGB", ⟨[[(0, 0, 0)]]⟩⟩ [⟨0, 0, 0, 0⟩] =
      .ok ⟨⟨"RGB", ⟨[[(0, 0, 0)]]⟩⟩, "image/png"⟩ :=
  ⟨by with_unfolding_all rfl,
   redact_image_idem some PILImage.pix (PILImage.mk "RGB") (fun g => rfl)
     ⟨"RGB", ⟨[[(5, 5, 5)]]⟩⟩ [⟨0, 0, 0, 0⟩]
     ⟨⟨"RGB", ⟨[[(0, 0, 0)]]⟩⟩, "image/png"⟩ (by with_unfolding_all rfl)⟩

/-- **C8**: rendering with an empty region set modifies no pixel — the
output decodes, in mode "RGB", to exactly the pixels of the decoded source
image (the source's own pixel grid whenever the source decodes in mode
"RGB", and its RGB-normalized grid otherwise): a lossless decode/re-encode
round-trip with no modification. -/
theorem redact_image_empty_lossless {β : Type} (imageOpen : β → Option PILImage)
    (convertRGB : PILImage → PixelGrid) (savePNG : PixelGrid → β)
    (hRT : ∀ g : PixelGrid, imageOpen (savePNG g) = some ⟨"RGB", g⟩)
    (src : β) (image : PILImage) (res : ImageRedactionResult β)
    (hopen : imageOpen src = some image)
    (h : redact_image imageOpen convertRGB savePNG src [] = .ok res) :
    imageOpen res.content =
      some ⟨"RGB", if image.mode = "RGB" then image.pix else convertRGB image⟩ ∧
    (image.mode = "RGB" → imageOpen res.content = some ⟨"RGB", image.pix⟩) := by
  unfold redact_image at h
  rw [hopen] at h
  simp only [List.foldl_nil] at h
  have hres : res = ⟨savePNG
      (if image.mode = "RGB" then image.pix else convertRGB image),
      "image/png"⟩ := (Except.ok.inj h).symm
  subst hres
  refine ⟨hRT _, fun hmode => ?_⟩
  rw [hRT]
  rw [if_pos hmode]

/-- **C8 witness**: the toy codec, a concrete 1×1 RGB image and the empty
region set; the output decodes to exactly the directly-decoded pixels. -/
theorem redact_image_empty_lossless_witness :
    redact_image (β := PILImage) some PILImage.pix (PILImage.mk "RGB")
      ⟨"RGB", ⟨[[(7, 8, 9)]]⟩⟩ [] =
      .ok ⟨⟨"RGB", ⟨[[(7, 8, 9)]]⟩⟩, "image/png"⟩ ∧
    some (⟨"RGB", ⟨[[(7, 8, 9)]]⟩⟩ : PILImage) =
      some (⟨"RGB", ⟨[[(7, 8, 9)]]⟩⟩ : PILImage) :=
  ⟨by with_unfolding_all rfl,
   (redact_image_empty_lossless some PILImage.pix (PILImage.mk "RGB")
     (fun g => rfl) ⟨"RGB", ⟨[[(7, 8, 9)]]⟩⟩ ⟨"RGB", ⟨[[(7, 8, 9)]]⟩⟩
     ⟨⟨"RGB", ⟨[[(7, 8, 9)]]⟩⟩, "image/png"⟩ rfl
     (by with_unfolding_all rfl)).2 rfl⟩

end RedactPii
